import Mathlib

/-!
Verification of the dynamic-threat-feed synchronization pipeline.

This file gives a shallow embedding of the core of the repository:
the merger (FeedManager.mergeIndicators), the chunked KV indicator
store (StorageService), the collector scoring step
(ThreatCollector.addThreatIndicator), the text extraction helpers
(extractIPs, extractDomains and their validators), the publisher
(CloudflareAPIService.updateGatewayListSnapshot / createMultipleLists)
and its HTTP retry wrapper (makeRequest), and the orchestrator's
isUpdateNeeded decision.

Modelling conventions:
- JavaScript Map objects become association lists (List (String x v))
  with Map lookup/set semantics (set keeps the position of an existing
  key, otherwise appends).
- JavaScript numbers become rationals; the arithmetic the code performs
  (sums, halving, min) is exact on the values involved.
- ISO timestamp strings are ordered exactly as their epoch values, so
  timestamps are embedded as integers.
- The KV namespace becomes a function from a key type to Option String;
  JSON serialization of the indicator map becomes an explicit,
  executable record format with the same structural behaviour
  (framing, so that truncation breaks parsing).
- Functions whose source hardcodes a size constant (20 MiB chunk
  threshold, 4500 per-list cap, 1000 batch size) are defined with the
  size as an explicit parameter and instantiated with the source's
  constant; the parametric form is what concrete small-scale runs
  evaluate.
-/

namespace ThreatFeed

/-! ## Generic list utilities -/

/-- Lookup in an association list: the value bound to the first
occurrence of the key (JS Map.get). -/
def mapFind? {α : Type} (m : List (String × α)) (k : String) : Option α :=
  match m with
  | [] => none
  | (k₀, v₀) :: rest => if k₀ = k then some v₀ else mapFind? rest k

/-- Update an association list at a key: replace the first binding in
place if the key is present, otherwise append (JS Map.set). -/
def mapSet {α : Type} (m : List (String × α)) (k : String) (v : α) : List (String × α) :=
  match m with
  | [] => [(k, v)]
  | (k₀, v₀) :: rest => if k₀ = k then (k, v) :: rest else (k₀, v₀) :: mapSet rest k v

/-- Key list of an association list. -/
def mapKeys {α : Type} (m : List (String × α)) : List String :=
  m.map Prod.fst

/-- Order-preserving deduplication, keeping the first occurrence of
each element: the JS idiom [...new Set(xs)]. -/
def dedupFirst (xs : List String) : List String :=
  xs.foldl (fun acc x => if x ∈ acc then acc else acc ++ [x]) []

/-- Contiguous chunks of size sz, driven by explicit fuel so that the
definition is structural and kernel-evaluable. -/
def chunkChop {α : Type} (sz : Nat) : Nat → List α → List (List α)
  | 0, _ => []
  | _, [] => []
  | fuel + 1, l => l.take sz :: chunkChop sz fuel (l.drop sz)

/-- Split a list into contiguous slices of at most sz elements: the
repeated for-loop slice(i, i + sz) idiom of the source. -/
def chunkListGen {α : Type} (sz : Nat) (l : List α) : List (List α) :=
  chunkChop sz l.length l

/-! ## Data model

ThreatIndicator mirrors the interface in src/types.ts: value, type,
score, sources, first_seen, last_seen, expires_at. Timestamps are
epoch integers, scores are rationals. -/

inductive IndicatorType : Type
  | ip : IndicatorType
  | domain : IndicatorType
deriving DecidableEq, Repr

structure ThreatIndicator : Type where
  value : String
  itype : IndicatorType
  score : ℚ
  sources : List String
  first_seen : Int
  last_seen : Int
  expires_at : Int
deriving DecidableEq, Repr

/-- An IndicatorSet: the JS Map from canonical value to indicator. -/
abbrev IndicatorSet : Type := List (String × ThreatIndicator)

/-! ## Merger: FeedManager.mergeIndicators -/

/-- The body of the merge loop for one fresh entry, given the current
merged map: if the key is present, dedup-union the sources, average the
scores capped at 100, and take last_seen and expires_at from the fresh
indicator, keeping the remaining fields of the existing one; otherwise
insert the fresh indicator. Translated from
FeedManager.mergeIndicators in src/services/feedManager.ts. -/
def mergeStep (merged : IndicatorSet) (kv : String × ThreatIndicator) : IndicatorSet :=
  match mapFind? merged kv.1 with
  | some existingIndicator =>
    let allSources := dedupFirst (existingIndicator.sources ++ kv.2.sources)
    let newScore := (existingIndicator.score + kv.2.score) / 2
    mapSet merged kv.1
      { existingIndicator with
        score := min 100 newScore
        sources := allSources
        last_seen := kv.2.last_seen
        expires_at := kv.2.expires_at }
  | none => mapSet merged kv.1 kv.2

/-- FeedManager.mergeIndicators: start from a copy of the existing map
and fold the merge step over the fresh entries. -/
def mergeIndicators (existing newIndicators : IndicatorSet) : IndicatorSet :=
  newIndicators.foldl mergeStep existing

/-- The merged indicator for a key present in both maps, as the
merge loop computes it. -/
def mergeCombine (existingIndicator newIndicator : ThreatIndicator) : ThreatIndicator :=
  { existingIndicator with
    score := min 100 ((existingIndicator.score + newIndicator.score) / 2)
    sources := dedupFirst (existingIndicator.sources ++ newIndicator.sources)
    last_seen := newIndicator.last_seen
    expires_at := newIndicator.expires_at }

/-! ## Kernel-evaluable string helpers

The JS code manipulates JSON text with length, slice and join. These
helpers mirror those operations over the character list of a string,
with structural recursion only, so that concrete runs reduce inside
the kernel. -/

/-- Length of a string in characters (JS String.length on the ASCII
payloads involved). -/
def strLen (s : String) : Nat :=
  s.toList.length

/-- Join a list of strings with a separator (JS Array.join). -/
def joinWith (sep : String) : List String → String
  | [] => ""
  | [x] => x
  | x :: y :: rest => x ++ sep ++ joinWith sep (y :: rest)

/-- Split a character list on a separator character, preserving empty
segments (JS String.split with a single-character separator). -/
def splitOnChar (sep : Char) : List Char → List (List Char)
  | [] => [[]]
  | c :: cs =>
    match splitOnChar sep cs with
    | [] => [[]]
    | seg :: segs => if c = sep then [] :: seg :: segs else (c :: seg) :: segs

/-- String wrapper of splitOnChar. -/
def strSplitOn (sep : Char) (s : String) : List String :=
  (splitOnChar sep s.toList).map String.mk

/-- Decimal digit value of a character, when it is a digit. -/
def digitVal (c : Char) : Option Nat :=
  if c.isDigit then some (c.toNat - 48) else none

/-- Accumulating decimal parse of a digit list. -/
def parseNatGo : List Char → Nat → Option Nat
  | [], acc => some acc
  | c :: cs, acc =>
    match digitVal c with
    | some d => parseNatGo cs (acc * 10 + d)
    | none => none

/-- Parse a nonempty decimal numeral. -/
def parseNatStr (s : String) : Option Nat :=
  match s.toList with
  | [] => none
  | cs => parseNatGo cs 0

/-- Parse a decimal integer with optional leading minus sign. -/
def parseIntStr (s : String) : Option Int :=
  match s.toList with
  | [] => none
  | '-' :: cs =>
    match cs with
    | [] => none
    | _ => (parseNatGo cs 0).map (fun n => -(n : Int))
  | cs => (parseNatGo cs 0).map (fun n => (n : Int))

/-! ## Indicator serialization

The source serializes the indicator map with JSON.stringify and parses
it back with JSON.parse. The embedding uses an explicit executable
record format with the same structure: one framed blob, one line per
map entry, failing to parse when the frame or any record is mangled
(as truncated JSON does). -/

/-- Render the indicator type tag. -/
def encodeType : IndicatorType → String
  | IndicatorType.ip => "ip"
  | IndicatorType.domain => "domain"

/-- Parse the indicator type tag. -/
def decodeType (s : String) : Option IndicatorType :=
  if s = "ip" then some IndicatorType.ip
  else if s = "domain" then some IndicatorType.domain
  else none

/-- Render one map entry of the serialized indicator blob as a
pipe-separated record. -/
def encodeEntry (k : String) (i : ThreatIndicator) : String :=
  k ++ "|" ++ i.value ++ "|" ++ encodeType i.itype ++ "|" ++
    toString i.score.num ++ "|" ++ toString i.score.den ++ "|" ++
    joinWith "," i.sources ++ "|" ++
    toString i.first_seen ++ "|" ++ toString i.last_seen ++ "|" ++ toString i.expires_at

/-- Parse one record of the serialized indicator blob. -/
def decodeEntry (s : String) : Option (String × ThreatIndicator) :=
  match strSplitOn '|' s with
  | [k, v, ty, num, den, srcs, f, l, e] =>
    match decodeType ty, parseIntStr num, parseNatStr den,
        parseIntStr f, parseIntStr l, parseIntStr e with
    | some ty, some num, some den, some f, some l, some e =>
      if den = 0 then none
      else some (k, ⟨v, ty, mkRat num den,
        if srcs = "" then [] else strSplitOn ',' srcs, f, l, e⟩)
    | _, _, _, _, _, _ => none
  | _ => none

/-- Serialize an indicator map to one blob
(JSON.stringify(Object.fromEntries(indicators)) in the source). -/
def serializeIndicators (m : IndicatorSet) : String :=
  "(" ++ joinWith "\n" (m.map fun kv => encodeEntry kv.1 kv.2) ++ ")"

/-- Parse a serialized indicator blob (JSON.parse in the source):
checks the framing and parses every record, failing on any mangled
content. -/
def parseIndicators (s : String) : Option IndicatorSet :=
  match s.toList with
  | '(' :: rest =>
    if rest.getLast? = some ')' then
      let body := rest.dropLast
      if body.isEmpty then some []
      else (splitOnChar '\n' body).mapM (fun cs => decodeEntry (String.mk cs))
    else none
  | _ => none

/-- Render the chunk index record
(total_chunks, total_size, created_at). -/
def encodeChunkIndex (totalChunks totalSize : Nat) (createdAt : Int) : String :=
  toString totalChunks ++ "|" ++ toString totalSize ++ "|" ++ toString createdAt

/-- Parse the chunk index record. -/
def decodeChunkIndex (s : String) : Option (Nat × Nat × Int) :=
  match strSplitOn '|' s with
  | [a, b, c] =>
    match parseNatStr a, parseNatStr b, parseIntStr c with
    | some a, some b, some c => some (a, b, c)
    | _, _, _ => none
  | _ => none

/-! ## Indicator store: StorageService over the KV namespace

The KV keys the storage service uses are fixed distinct constants
(single-entry key, chunk index key, per-chunk keys, per-indicator
point keys with the indicators prefix, and scalar keys); the key space
is embedded as an inductive type and the namespace as a function to
optional stored strings. -/

inductive KVKey : Type
  | feedMetadata : KVKey
  | lastUpdate : KVKey
  | updateStats : KVKey
  | sourcesConfig : KVKey
  | allIndicators : KVKey
  | chunkIndex : KVKey
  | chunk : Nat → KVKey
  | indicator : String → KVKey
  | gatewayListsMeta : KVKey
deriving DecidableEq

/-- The KV namespace: each key holds an optional string value. -/
abbrev KVState : Type := KVKey → Option String

/-- The empty KV namespace. -/
def emptyKV : KVState := fun _ => none

/-- KV put. -/
def kvPut (st : KVState) (k : KVKey) (v : String) : KVState :=
  fun k' => if k' = k then some v else st k'

/-- KV delete. -/
def kvDelete (st : KVState) (k : KVKey) : KVState :=
  fun k' => if k' = k then none else st k'

/-- StorageService.storeIndicators with the chunk-size threshold as an
explicit parameter (the source hardcodes 20 MiB): serialize the map;
at or below the threshold write the single entry and delete the chunk
index; above it write the chunks and the chunk index and delete the
single entry. Note the small branch deletes only the chunk index key,
not the chunk entries themselves. Translated from
src/src/services/storageService.ts lines 346-395. -/
def storeIndicatorsWith (maxChunkSize : Nat) (st : KVState) (indicators : IndicatorSet)
    (now : Int) : KVState :=
  let fullData := serializeIndicators indicators
  if strLen fullData ≤ maxChunkSize then
    kvDelete (kvPut st KVKey.allIndicators fullData) KVKey.chunkIndex
  else
    let chunks := (chunkListGen maxChunkSize fullData.toList).map String.mk
    let withChunks := chunks.enum.foldl
      (fun acc ic => kvPut acc (KVKey.chunk ic.1) ic.2) st
    let withIndex := kvPut withChunks KVKey.chunkIndex
      (encodeChunkIndex chunks.length (strLen fullData) now)
    kvDelete withIndex KVKey.allIndicators

/-- StorageService.storeIndicators at the source's 20 MiB threshold. -/
def storeIndicators (st : KVState) (indicators : IndicatorSet) (now : Int) : KVState :=
  storeIndicatorsWith (20 * 1024 * 1024) st indicators now

/-- StorageService.getAllIndicators: when a chunk index is stored,
parse it (an unparseable index is an uncaught throw), read every
declared chunk (a missing chunk reads as the empty string, as JS
Array.join renders null), concatenate and parse, returning the empty
map when parsing fails; otherwise fall back to the single-entry key,
returning the empty map when it is absent or unparseable. Translated
from src/src/services/storageService.ts lines 400-456. -/
def getAllIndicators (st : KVState) : Except String IndicatorSet :=
  match st KVKey.chunkIndex with
  | some chunkIndexData =>
    match decodeChunkIndex chunkIndexData with
    | none => Except.error "failed to parse chunk index"
    | some nst =>
      let chunks := (List.range nst.1).map (fun i => (st (KVKey.chunk i)).getD "")
      let fullData := joinWith "" chunks
      match parseIndicators fullData with
      | some indicators => Except.ok indicators
      | none => Except.ok []
  | none =>
    match st KVKey.allIndicators with
    | none => Except.ok []
    | some data =>
      match parseIndicators data with
      | some indicators => Except.ok indicators
      | none => Except.ok []

/-- StorageService.cleanupExpiredIndicators: load the full set, collect
the keys of indicators with expires_at at or before now, delete the
per-indicator point keys (indicators prefix plus key) for them, and
return the expired count. Translated from
src/src/services/storageService.ts lines 480-506. -/
def cleanupExpiredIndicators (st : KVState) (now : Int) : Except String (Nat × KVState) :=
  match getAllIndicators st with
  | Except.error e => Except.error e
  | Except.ok allIndicators =>
    let expiredKeys :=
      (allIndicators.filter (fun kv => decide (kv.2.expires_at ≤ now))).map Prod.fst
    let st' := expiredKeys.foldl (fun acc key => kvDelete acc (KVKey.indicator key)) st
    Except.ok (expiredKeys.length, st')

/-! ## Orchestrator: FeedManager.isUpdateNeeded -/

/-- FeedManager.isUpdateNeeded: true when no last-update timestamp is
stored; otherwise true exactly when now minus the stored timestamp is
at least the configured interval (hours, converted to milliseconds).
Translated from FeedManager.isUpdateNeeded in
src/services/feedManager.ts. -/
def isUpdateNeeded (lastUpdate : Option Int) (now : Int) (intervalHours : Int) : Bool :=
  match lastUpdate with
  | none => true
  | some lastUpdateTime =>
    let intervalMs := intervalHours * 60 * 60 * 1000
    decide (now - lastUpdateTime ≥ intervalMs)

/-! ## Publisher retry wrapper: CloudflareAPIService.makeRequest -/

/-- An HTTP response: status code and body text (the parsed JSON body
is represented by its text). -/
structure HttpResponse : Type where
  status : Nat
  body : String

/-- JS Response.ok: status in the 2xx range. -/
def respOk (r : HttpResponse) : Bool :=
  decide (200 ≤ r.status ∧ r.status < 300)

/-- The retry ceiling of makeRequest (maxRetries in the source). -/
def maxRetries : Nat := 3

/-- The base backoff delay of makeRequest in milliseconds (baseDelay
in the source). -/
def baseDelay : Nat := 2000

/-- The message of the error thrown for a non-ok response. -/
def httpError (r : HttpResponse) : String :=
  "HTTP " ++ toString r.status ++ ": " ++ r.body

/-- The retry loop of makeRequest from a given 1-based attempt number,
with fuel for the remaining loop iterations; responses gives the
response each attempt's fetch produces. Returns the surfaced result
(the response body on success, the thrown error message otherwise)
together with the backoff delays slept, in order. A 429 before the
final attempt sleeps baseDelay times 2^(attempt-1) and retries; a 429
on the final attempt falls through to the not-ok throw, which the
catch rethrows; any other non-ok response throws, and the catch
rethrows on the final attempt and otherwise sleeps the same backoff
delay and retries. Translated from CloudflareAPIService.makeRequest in
src/src/services/cloudflareAPI.ts lines 396-448. -/
def makeRequestFrom (responses : Nat → HttpResponse) :
    Nat → Nat → Except String String × List Nat
  | _, 0 => (Except.error "retry loop exit", [])
  | attempt, fuel + 1 =>
    let r := responses attempt
    let delay := baseDelay * 2 ^ (attempt - 1)
    if r.status = 429 then
      if attempt < maxRetries then
        let rest := makeRequestFrom responses (attempt + 1) fuel
        (rest.1, delay :: rest.2)
      else
        (Except.error (httpError r), [])
    else if respOk r = false then
      if attempt = maxRetries then
        (Except.error (httpError r), [])
      else
        let rest := makeRequestFrom responses (attempt + 1) fuel
        (rest.1, delay :: rest.2)
    else
      (Except.ok r.body, [])

/-- CloudflareAPIService.makeRequest: run the retry loop from attempt 1
with maxRetries iterations available. -/
def makeRequest (responses : Nat → HttpResponse) : Except String String × List Nat :=
  makeRequestFrom responses 1 maxRetries

/-! ## Collector scoring: ThreatCollector.addThreatIndicator -/

/-- A threat source as the scoring step sees it: its name and scoring
weight (the remaining ThreatSource fields do not affect scoring). -/
structure SourceCfg : Type where
  name : String
  weight : ℚ
deriving DecidableEq, Repr

/-- ThreatCollector.addThreatIndicator: when the value is already in
the pass's map and this source has not yet reported it, append the
source name, add the source weight to the score (no cap is applied
here), and refresh last_seen and expires_at; when the source already
reported it, change nothing; when the value is new, create the
indicator with the source's weight as score. Translated from
src/src/services/threatCollector.ts lines 219-252. -/
def addThreatIndicator (indicators : IndicatorSet) (value : String) (ty : IndicatorType)
    (src : SourceCfg) (timestamp expiresAt : Int) : IndicatorSet :=
  match mapFind? indicators value with
  | some existing =>
    if src.name ∈ existing.sources then indicators
    else mapSet indicators value
      { existing with
        sources := existing.sources ++ [src.name]
        score := existing.score + src.weight
        last_seen := timestamp
        expires_at := expiresAt }
  | none =>
    mapSet indicators value
      ⟨value, ty, src.weight, [src.name], timestamp, timestamp, expiresAt⟩

/-- One extracted raw indicator occurrence inside a collection pass:
the value, its type, the reporting source, and the timestamps the
call to addThreatIndicator computes. -/
structure Report : Type where
  value : String
  rtype : IndicatorType
  src : SourceCfg
  timestamp : Int
  expiresAt : Int

/-- The per-value effect of one addThreatIndicator call on the current
binding of its value. -/
def collectStepFun (cur : Option ThreatIndicator) (r : Report) : ThreatIndicator :=
  match cur with
  | some existing =>
    if r.src.name ∈ existing.sources then existing
    else
      { existing with
        sources := existing.sources ++ [r.src.name]
        score := existing.score + r.src.weight
        last_seen := r.timestamp
        expires_at := r.expiresAt }
  | none => ⟨r.value, r.rtype, r.src.weight, [r.src.name], r.timestamp, r.timestamp, r.expiresAt⟩

/-- The collection pass loop of collectThreatIntelligence: feed every
extracted occurrence through addThreatIndicator. -/
def processReports (indicators : IndicatorSet) (reports : List Report) : IndicatorSet :=
  reports.foldl
    (fun acc r => addThreatIndicator acc r.value r.rtype r.src r.timestamp r.expiresAt)
    indicators

/-- Keep the first source per name (the effect of the
already-reported guard across one value's reports). -/
def dbnStep (acc : List SourceCfg) (s : SourceCfg) : List SourceCfg :=
  if s.name ∈ acc.map SourceCfg.name then acc else acc ++ [s]

/-- The distinct contributing sources of a report sequence, first
occurrence per name. -/
def distinctByName (srcs : List SourceCfg) : List SourceCfg :=
  srcs.foldl dbnStep []

/-! ## Publisher: CloudflareAPIService.createMultipleLists -/

/-- The per-list capacity cap (maxItemsPerList in the source). -/
def maxItemsPerList : Nat := 4500

/-- The batch size for list appends (batchSize in the source). -/
def appendBatchSize : Nat := 1000

/-- Left-pad a numeral to width 3 with zeros
(String(n).padStart(3, zero)). -/
def pad3 (n : Nat) : String :=
  let s := toString n
  String.mk (List.replicate (3 - strLen s) '0') ++ s

/-- The deterministic name of partition i (0-based) out of total, for
a given date stamp string (YYYYMMDD): the naming line of
createMultipleLists. -/
def listNameFor (datestamp : String) (i total : Nat) : String :=
  "DynamicThreatFeed-" ++ datestamp ++ "-Part" ++ pad3 (i + 1) ++ "of" ++ pad3 total

/-- The uppercase type tag used in item comments. -/
def encodeTypeUpper : IndicatorType → String
  | IndicatorType.ip => "IP"
  | IndicatorType.domain => "DOMAIN"

/-- A downstream Gateway List item: value plus comment annotation. -/
structure GatewayItem : Type where
  value : String
  comment : String
deriving DecidableEq, Repr

/-- The comment annotation of one indicator (type, score, sources,
last-seen). -/
def itemComment (i : ThreatIndicator) : String :=
  encodeTypeUpper i.itype ++ " - Score: " ++
    toString i.score.num ++ "/" ++ toString i.score.den ++
    " - Sources: " ++ joinWith ", " i.sources ++
    " - Last seen: " ++ toString i.last_seen

/-- Convert a slice of indicators to Gateway List items. -/
def toGatewayItems (l : List ThreatIndicator) : List GatewayItem :=
  l.map (fun i => ⟨i.value, itemComment i⟩)

/-- The outcome the downstream API gives one create-list call. -/
inductive CreateOutcome : Type
  | failed : CreateOutcome
  | created : String → CreateOutcome
deriving DecidableEq, Repr

/-- The downstream API behaviour during one publish: what the
create-list call for each partition position returns (failed covers
both a thrown creation error and a response without an id), and
whether each batch append to a given list id succeeds. -/
structure ApiEnv : Type where
  createResult : Nat → CreateOutcome
  batchOk : String → Nat → Bool

/-- Sequentially append the batches of one list, stopping at the first
failed append (the thrown batch error aborts this list's loop);
returns whether every batch succeeded. -/
def populateBatches (env : ApiEnv) (id : String) : Nat → List (List GatewayItem) → Bool
  | _, [] => true
  | idx, _ :: rest =>
    if env.batchOk id idx then populateBatches env id (idx + 1) rest else false

/-- The per-partition loop of createMultipleLists: skip empty slices;
create a list for each slice (a creation failure or missing id skips
only this slice); populate it in batches (a batch failure abandons
only this list, the per-list catch continues with the siblings); the
ids of the fully populated lists accumulate in order. -/
def createListsLoop (env : ApiEnv) (batchSize : Nat) :
    List (List ThreatIndicator) → Nat → List String
  | [], _ => []
  | listItems :: rest, i =>
    if listItems.isEmpty then createListsLoop env batchSize rest (i + 1)
    else
      match env.createResult i with
      | CreateOutcome.failed => createListsLoop env batchSize rest (i + 1)
      | CreateOutcome.created id =>
        let items := toGatewayItems listItems
        let batches := chunkListGen batchSize items
        if populateBatches env id 0 batches then
          id :: createListsLoop env batchSize rest (i + 1)
        else
          createListsLoop env batchSize rest (i + 1)

/-- The record stored under the gateway-lists metadata key: the list
ids, the creation time, and the count. -/
def encodeListIds (ids : List String) (now : Int) : String :=
  joinWith "," ids ++ "|" ++ toString now ++ "|" ++ toString ids.length

/-- The upload response of a publish call
(CloudflareGatewayListUploadResponse). -/
structure UploadResponse : Type where
  success : Bool
  operationId : String
  errors : List String
deriving DecidableEq, Repr

/-- CloudflareAPIService.createMultipleLists with the per-list cap and
batch size as explicit parameters (source constants 4500 and 1000):
split the indicators into contiguous slices of at most the cap, create
and populate each slice's list with per-list failure isolation,
persist the created ids under the gateway-lists metadata key, and
return a success response unconditionally (the outer catch is
unreachable because every fallible step is wrapped: the old-list
cleanup and the id persistence swallow their own errors and each
list's creation and population has its own catch). Translated from
src/src/services/cloudflareAPI.ts lines 214-332. Returns the upload
response, the created ids, and the updated KV state. -/
def createMultipleListsWith (cap batchSize : Nat) (env : ApiEnv) (st : KVState)
    (indicators : List ThreatIndicator) (now : Int) :
    UploadResponse × List String × KVState :=
  let lists := chunkListGen cap indicators
  let createdListIds := createListsLoop env batchSize lists 0
  let stored := kvPut st KVKey.gatewayListsMeta (encodeListIds createdListIds now)
  (⟨true, "multi_list_success_" ++ toString createdListIds.length ++ "_lists", []⟩,
    createdListIds, stored)

/-- CloudflareAPIService.createMultipleLists at the source constants. -/
def createMultipleLists (env : ApiEnv) (st : KVState)
    (indicators : List ThreatIndicator) (now : Int) :
    UploadResponse × List String × KVState :=
  createMultipleListsWith maxItemsPerList appendBatchSize env st indicators now

/-! ## Validators and extractors: src/utils/validators.ts

extractIPs and extractDomains work line by line over the input text,
skipping blank and comment lines, matching the IP regex (with word
boundaries and the JS engine's left-to-right backtracking) or cleaning
the line and scanning embedded URLs for domains, validating, and
deduplicating the collected values at the end. -/

/-- A JS word character (the regex class backslash-w):
letters, digits, underscore. -/
def isWordChar (c : Char) : Bool :=
  c.isAlphanum || c = '_'

/-- A JS whitespace character as far as trim and the separator class
are concerned (space, tab, newline, vertical tab, form feed,
carriage return). -/
def isSpaceChar (c : Char) : Bool :=
  c.toNat = 32 || c.toNat = 9 || c.toNat = 10 || c.toNat = 11 || c.toNat = 12 || c.toNat = 13

/-- JS String.trim over the character list. -/
def trimChars (cs : List Char) : List Char :=
  ((cs.dropWhile isSpaceChar).reverse.dropWhile isSpaceChar).reverse

/-- JS String.trim. -/
def strTrim (s : String) : String :=
  String.mk (trimChars s.toList)

/-- Whether one character list begins with another. -/
def beginsWith : List Char → List Char → Bool
  | [], _ => true
  | _ :: _, [] => false
  | p :: ps, c :: cs => if p = c then beginsWith ps cs else false

/-- JS String.startsWith. -/
def strBeginsWith (s pre : String) : Bool :=
  beginsWith pre.toList s.toList

/-- ASCII lowercase of a string (JS toLowerCase on these payloads). -/
def strToLower (s : String) : String :=
  String.mk (s.toList.map Char.toLower)

/-- The skip condition of both extractors: the trimmed line is empty
or starts with the hash or double-slash comment markers. -/
def skipLine (trimmed : String) : Bool :=
  trimmed = "" || strBeginsWith trimmed "#" || strBeginsWith trimmed "//"

/-- The candidate match lengths of one octet of the IP regex
(the alternation 25[0-5] then 2[0-4][0-9] then [01]?[0-9][0-9]?) at
the head of the character list, in the JS engine's backtracking
preference order. -/
def octetCandidates (cs : List Char) : List Nat :=
  (match cs with
   | '2' :: '5' :: c :: _ => if '0' ≤ c && c ≤ '5' then [3] else []
   | _ => []) ++
  (match cs with
   | '2' :: c :: d :: _ => if '0' ≤ c && c ≤ '4' && d.isDigit then [3] else []
   | _ => []) ++
  (match cs with
   | a :: b :: c :: _ =>
     if (a = '0' || a = '1') && b.isDigit && c.isDigit then [3] else []
   | _ => []) ++
  (match cs with
   | a :: b :: _ => if a.isDigit && b.isDigit then [2] else []
   | _ => []) ++
  (match cs with
   | a :: _ => if a.isDigit then [1] else []
   | _ => [])

/-- The candidate total match lengths of n dot-separated octets at the
head of the character list, in backtracking preference order. -/
def quadMatchLens : Nat → List Char → List Nat
  | 0, _ => []
  | 1, cs => octetCandidates cs
  | n + 2, cs =>
    (octetCandidates cs).flatMap (fun L =>
      match cs.drop L with
      | '.' :: rest => (quadMatchLens (n + 1) rest).map (fun R => L + 1 + R)
      | _ => [])

/-- isValidIP: the anchored IP_REGEX test, true when some backtracking
assignment of the four octets consumes the whole string. -/
def isValidIP (s : String) : Bool :=
  (quadMatchLens 4 s.toList).any (fun L => L = s.toList.length)

/-- The trailing word-boundary check of the IP match: the character
after the match is absent or not a word character. -/
def boundaryAfterOk (cs : List Char) (L : Nat) : Bool :=
  match cs.drop L with
  | [] => true
  | d :: _ => !(isWordChar d)

/-- The first backtracking candidate whose trailing word boundary
holds: the match the JS engine commits to at this position. -/
def firstAccepted (cands : List Nat) (cs : List Char) : Option Nat :=
  cands.find? (fun L => boundaryAfterOk cs L)

/-- The global scan of trimmed.match(ip-regex): at each position where
the leading word boundary holds (the previous character is absent or
not a word character), try the quad pattern; on a match, emit it and
resume after its end (whose last character is a digit, hence a word
character); otherwise advance one character. Fuel keeps the recursion
structural; one character is consumed per step at minimum. -/
def scanIPsGo : Nat → List Char → Bool → List String
  | 0, _, _ => []
  | _ + 1, [], _ => []
  | fuel + 1, c :: cs, prevWord =>
    if prevWord then scanIPsGo fuel cs (isWordChar c)
    else
      match firstAccepted (quadMatchLens 4 (c :: cs)) (c :: cs) with
      | some L => String.mk ((c :: cs).take L) :: scanIPsGo fuel ((c :: cs).drop L) true
      | none => scanIPsGo fuel cs (isWordChar c)

/-- isPrivateIP: octet-range membership in the excluded private,
loopback, link-local, multicast and reserved ranges. Translated from
src/src/services/threatCollector.ts lines 392-416. -/
def isPrivateIP (ip : String) : Bool :=
  if !(isValidIP ip) then false
  else
    let parts := (strSplitOn '.' ip).map (fun p => (parseNatStr p).getD 0)
    let firstPart := parts.getD 0 0
    let secondPart := parts.getD 1 0
    (firstPart = 10) ||
    (firstPart = 172 && 16 ≤ secondPart && secondPart ≤ 31) ||
    (firstPart = 192 && secondPart = 168) ||
    (firstPart = 127) ||
    (firstPart = 169 && secondPart = 254) ||
    (224 ≤ firstPart)

/-- The per-line IP extraction of extractIPs: skip blank and comment
lines, scan the trimmed line for regex matches, and keep the matches
that validate and are not private. -/
def lineIPs (line : String) : List String :=
  let trimmed := strTrim line
  if skipLine trimmed then []
  else
    (scanIPsGo (trimmed.toList.length + 1) trimmed.toList false).filter
      (fun ip => isValidIP ip && !(isPrivateIP ip))

/-- extractIPs: per-line extraction over the lines of the text, with
the final new-Set deduplication. Translated from
src/src/services/threatCollector.ts lines 320-345. -/
def extractIPs (text : String) : List String :=
  dedupFirst (((strSplitOn '\n' text).map lineIPs).flatten)

/-- One label of DOMAIN_REGEX: an alphanumeric character, optionally
followed by up to 61 alphanumeric-or-hyphen characters and a final
alphanumeric character. -/
def labelRegexOk (l : List Char) : Bool :=
  match l with
  | [] => false
  | [c] => c.isAlphanum
  | c :: rest =>
    c.isAlphanum && rest.length ≤ 62 &&
      (match rest.getLast? with
       | some lastc => lastc.isAlphanum
       | none => false) &&
      rest.all (fun d => d.isAlphanum || d = '-')

/-- isValidDomain: length cap 253, optional trailing dot stripped, the
DOMAIN_REGEX shape on every dot-separated label, at least two labels,
and the per-label checks (nonempty, at most 63, no leading or trailing
hyphen). Translated from src/src/services/threatCollector.ts lines
280-315. -/
def isValidDomain (domain : String) : Bool :=
  if domain = "" || strLen domain > 253 then false
  else
    let cleanDomain :=
      match domain.toList.getLast? with
      | some '.' => String.mk domain.toList.dropLast
      | _ => domain
    let labels := strSplitOn '.' cleanDomain
    labels.all (fun l => labelRegexOk l.toList) &&
    decide (labels.length ≥ 2) &&
    labels.all (fun l =>
      decide (1 ≤ l.toList.length) && decide (l.toList.length ≤ 63) &&
      !(beginsWith ['-'] l.toList) &&
      !(match l.toList.getLast? with
        | some '-' => true
        | _ => false))

/-- A separator of the first-token split of extractDomains: the regex
class of whitespace, comma, semicolon, pipe. -/
def isSepChar (c : Char) : Bool :=
  isSpaceChar c || c = ',' || c = ';' || c = '|'

/-- Strip a leading http:// or https:// scheme. -/
def dropScheme (cs : List Char) : List Char :=
  if beginsWith ("http://".toList) cs then cs.drop 7
  else if beginsWith ("https://".toList) cs then cs.drop 8
  else cs

/-- The candidate-domain cleaning of extractDomains: strip the scheme
and a www. marker, take the first run before any separator, and drop
path components. -/
def cleanLineOf (trimmed : List Char) : List Char :=
  let s1 := dropScheme trimmed
  let s2 := if beginsWith ("www.".toList) s1 then s1.drop 4 else s1
  let s3 := s2.takeWhile (fun c => !(isSepChar c))
  s3.takeWhile (fun c => !(c = '/'))

/-- A character of the URL-host regex class: alphanumeric, dot,
hyphen. -/
def hostChar (c : Char) : Bool :=
  c.isAlphanum || c = '.' || c = '-'

/-- The global scan of trimmed.match(url-regex): at each position, an
http:// or https:// scheme followed by a nonempty host-character run
is a match whose host part is collected; scanning resumes after a
match and advances one character otherwise. -/
def scanURLHostsGo : Nat → List Char → List String
  | 0, _ => []
  | _ + 1, [] => []
  | fuel + 1, c :: cs =>
    let t := c :: cs
    if beginsWith ("http://".toList) t then
      let run := (t.drop 7).takeWhile hostChar
      if run.isEmpty then scanURLHostsGo fuel cs
      else String.mk run :: scanURLHostsGo fuel (t.drop (7 + run.length))
    else if beginsWith ("https://".toList) t then
      let run := (t.drop 8).takeWhile hostChar
      if run.isEmpty then scanURLHostsGo fuel cs
      else String.mk run :: scanURLHostsGo fuel (t.drop (8 + run.length))
    else scanURLHostsGo fuel cs

/-- The per-line domain extraction of extractDomains: skip blank and
comment lines; validate the cleaned line and push it lowercased; then
scan for URLs inside the line and push each valid host lowercased. -/
def lineDomains (line : String) : List String :=
  let trimmed := strTrim line
  if skipLine trimmed then []
  else
    let cleanLine := String.mk (cleanLineOf trimmed.toList)
    (if isValidDomain cleanLine then [strToLower cleanLine] else []) ++
      ((scanURLHostsGo (trimmed.toList.length + 1) trimmed.toList).filter
          isValidDomain).map strToLower

/-- extractDomains: per-line extraction over the lines of the text,
with the final new-Set deduplication. Translated from
src/src/services/threatCollector.ts lines 350-387. -/
def extractDomains (text : String) : List String :=
  dedupFirst (((strSplitOn '\n' text).map lineDomains).flatten)

/-! ## Example fixtures used by concrete test cases -/

/-- First report of value 9.9.9.9 by source A with weight 60. -/
def exRep1 : Report :=
  ⟨"9.9.9.9", IndicatorType.ip, ⟨"A", 60⟩, 0, 86400000⟩

/-- Second report of value 9.9.9.9 by source B with weight 60. -/
def exRep2 : Report :=
  ⟨"9.9.9.9", IndicatorType.ip, ⟨"B", 60⟩, 0, 86400000⟩

/-- A publish environment in which every list creation succeeds (ids
id0, id1, ...) but every batch append to id0 fails. -/
def exPubEnv : ApiEnv :=
  ⟨fun i => CreateOutcome.created ("id" ++ toString i),
    fun id _ => if id = "id0" then false else true⟩

/-- A downstream call that returns 500 on the first attempt and 200
afterwards. -/
def exResp500then200 : Nat → HttpResponse :=
  fun attempt => if attempt = 1 then ⟨500, "server error"⟩ else ⟨200, "ok-body"⟩

/-- A downstream call that returns 429 on the first two attempts and
200 afterwards. -/
def exResp429x2then200 : Nat → HttpResponse :=
  fun attempt => if attempt ≤ 2 then ⟨429, "rate limited"⟩ else ⟨200, "ok-body"⟩

/-- A downstream call that is rate limited on every attempt. -/
def exRespAll429 : Nat → HttpResponse :=
  fun _ => ⟨429, "rate limited"⟩

/-- An indicator that is already expired at time 100. -/
def exIndExp : ThreatIndicator :=
  ⟨"1.2.3.4", IndicatorType.ip, 5, ["S1"], 0, 0, 10⟩

/-- KV state after persisting the singleton expired-indicator map into
the empty namespace: the blob is far below the 20 MiB threshold, so the
single-entry branch runs. -/
def exStoreSt1 : KVState :=
  storeIndicators emptyKV [("1.2.3.4", exIndExp)] 0

/-- KV state after a chunked persist at threshold 4 into the empty
namespace: the serialized blob exceeds 4 characters, so chunks and a
chunk index are written and the single entry is deleted. -/
def exStoreStA : KVState :=
  storeIndicatorsWith 4 emptyKV [("1.2.3.4", exIndExp)] 0

/-- KV state after persisting the empty map (single-entry branch) on
top of the chunked state exStoreStA. -/
def exStoreStB : KVState :=
  storeIndicatorsWith 4 exStoreStA [] 0

/-- A storage state whose chunk index declares two chunks while only
chunk 0 is present. -/
def exMissingChunkSt : KVState :=
  kvPut (kvPut emptyKV KVKey.chunkIndex (encodeChunkIndex 2 8 0)) (KVKey.chunk 0) "(1.2"

/-- Indicator A with score 5 reported by source S1 (spec merge example). -/
def exIndA5 : ThreatIndicator :=
  ⟨"A", IndicatorType.ip, 5, ["S1"], 0, 0, 60⟩

/-- Indicator A with score 10 reported by source S1 (spec merge example). -/
def exIndA10 : ThreatIndicator :=
  ⟨"A", IndicatorType.ip, 10, ["S1"], 0, 10, 50⟩

/-- Indicator A with score 6 reported by source S2 (spec merge example). -/
def exIndA6 : ThreatIndicator :=
  ⟨"A", IndicatorType.ip, 6, ["S2"], 5, 20, 90⟩

/-! # Theorems -/

theorem mapFind?_set_self {α : Type} (m : List (String × α)) (k : String) (v : α) :
    mapFind? (mapSet m k v) k = some v := by
  induction m with
  | nil => simp [mapSet, mapFind?]
  | cons hd tl ih =>
    obtain ⟨k₀, v₀⟩ := hd
    by_cases h : k₀ = k
    · simp [mapSet, mapFind?, h]
    · simp [mapSet, mapFind?, h, ih]

theorem mapFind?_set_other {α : Type} (m : List (String × α)) (k k' : String) (v : α)
    (hne : k ≠ k') : mapFind? (mapSet m k v) k' = mapFind? m k' := by
  induction m with
  | nil => simp [mapSet, mapFind?, hne]
  | cons hd tl ih =>
    obtain ⟨k₀, v₀⟩ := hd
    by_cases h : k₀ = k
    · subst h
      simp [mapSet, mapFind?, hne]
    · simp only [mapSet, if_neg h]
      by_cases h' : k₀ = k'
      · simp [mapFind?, h']
      · simp [mapFind?, h', ih]

theorem mapFind?_eq_none_of_not_mem_keys {α : Type} (m : List (String × α)) (k : String)
    (hk : k ∉ mapKeys m) : mapFind? m k = none := by
  induction m with
  | nil => rfl
  | cons hd tl ih =>
    obtain ⟨k₀, v₀⟩ := hd
    simp only [mapKeys, List.map_cons, List.mem_cons] at hk
    push_neg at hk
    simp only [mapFind?, if_neg (Ne.symm hk.1)]
    exact ih (by simpa [mapKeys] using hk.2)

theorem dedupFirst_go_nodup (xs : List String) (acc : List String) (hacc : acc.Nodup) :
    (xs.foldl (fun acc x => if x ∈ acc then acc else acc ++ [x]) acc).Nodup := by
  induction xs generalizing acc with
  | nil => simpa using hacc
  | cons x xs ih =>
    simp only [List.foldl_cons]
    by_cases h : x ∈ acc
    · simpa [h] using ih acc hacc
    · have : (acc ++ [x]).Nodup := by
        simp [List.nodup_append, hacc, h]
      simpa [h] using ih (acc ++ [x]) this

theorem dedupFirst_nodup (xs : List String) : (dedupFirst xs).Nodup :=
  dedupFirst_go_nodup xs [] List.nodup_nil

theorem dedupFirst_go_mem (xs : List String) (acc : List String) (y : String) :
    y ∈ xs.foldl (fun acc x => if x ∈ acc then acc else acc ++ [x]) acc ↔
      y ∈ acc ∨ y ∈ xs := by
  induction xs generalizing acc with
  | nil => simp
  | cons x xs ih =>
    simp only [List.foldl_cons]
    by_cases h : x ∈ acc
    · rw [if_pos h, ih]
      constructor
      · rintro (hy | hy)
        · exact Or.inl hy
        · exact Or.inr (List.mem_cons_of_mem _ hy)
      · rintro (hy | hy)
        · exact Or.inl hy
        · rcases List.mem_cons.mp hy with rfl | hy
          · exact Or.inl h
          · exact Or.inr hy
    · rw [if_neg h, ih]
      simp only [List.mem_append, List.mem_singleton, List.mem_cons]
      tauto

theorem dedupFirst_mem (xs : List String) (y : String) :
    y ∈ dedupFirst xs ↔ y ∈ xs := by
  rw [dedupFirst, dedupFirst_go_mem]
  simp

theorem chunkChop_join {α : Type} (sz : Nat) (hsz : 0 < sz) :
    ∀ (fuel : Nat) (l : List α), l.length ≤ fuel → (chunkChop sz fuel l).flatten = l := by
  intro fuel
  induction fuel with
  | zero =>
    intro l hl
    have : l = [] := List.eq_nil_of_length_eq_zero (Nat.le_zero.mp hl)
    simp [this, chunkChop]
  | succ n ih =>
    intro l hl
    cases l with
    | nil => simp [chunkChop]
    | cons x xs =>
      have hrec : ((x :: xs).drop sz).length ≤ n := by
        rw [List.length_drop]
        have h1 : (x :: xs).length ≤ n + 1 := hl
        have h2 : (x :: xs).length = xs.length + 1 := by simp
        omega
      simp only [chunkChop, List.flatten_cons]
      rw [ih ((x :: xs).drop sz) hrec, List.take_append_drop]

theorem chunkListGen_join {α : Type} (sz : Nat) (hsz : 0 < sz) (l : List α) :
    (chunkListGen sz l).flatten = l :=
  chunkChop_join sz hsz l.length l le_rfl

theorem chunkChop_length_le {α : Type} (sz : Nat) :
    ∀ (fuel : Nat) (l : List α) (c : List α), c ∈ chunkChop sz fuel l → c.length ≤ sz := by
  intro fuel
  induction fuel with
  | zero => intro l c hc; simp [chunkChop] at hc
  | succ n ih =>
    intro l c hc
    cases l with
    | nil => simp [chunkChop] at hc
    | cons x xs =>
      simp only [chunkChop, List.mem_cons] at hc
      rcases hc with rfl | hc
      · simp
      · exact ih _ _ hc

theorem chunkListGen_length_le {α : Type} (sz : Nat) (l : List α) (c : List α)
    (hc : c ∈ chunkListGen sz l) : c.length ≤ sz :=
  chunkChop_length_le sz l.length l c hc

theorem chunkChop_count {α : Type} (sz : Nat) (hsz : 0 < sz) :
    ∀ (fuel : Nat) (l : List α), l.length ≤ fuel →
      (chunkChop sz fuel l).length = (l.length + sz - 1) / sz := by
  intro fuel
  induction fuel with
  | zero =>
    intro l hl
    have hnil : l = [] := List.eq_nil_of_length_eq_zero (Nat.le_zero.mp hl)
    subst hnil
    have h0 : (sz - 1) / sz = 0 := Nat.div_eq_of_lt (by omega)
    simp [chunkChop, h0]
  | succ n ih =>
    intro l hl
    cases l with
    | nil =>
      have h0 : (sz - 1) / sz = 0 := Nat.div_eq_of_lt (by omega)
      simp [chunkChop, h0]
    | cons x xs =>
      have hm : 1 ≤ (x :: xs).length := by simp
      have hrec : ((x :: xs).drop sz).length ≤ n := by
        rw [List.length_drop]
        have h2 : (x :: xs).length = xs.length + 1 := by simp
        omega
      simp only [chunkChop]
      rw [List.length_cons, ih ((x :: xs).drop sz) hrec, List.length_drop]
      have key : ((x :: xs).length - sz + sz - 1) / sz = ((x :: xs).length - 1) / sz := by
        rcases le_or_lt sz (x :: xs).length with h | h
        · congr 1
          omega
        · have h1 : (x :: xs).length - sz = 0 := by omega
          rw [h1, Nat.div_eq_of_lt (by omega), Nat.div_eq_of_lt (by omega)]
      have hr : ((x :: xs).length + sz - 1) = ((x :: xs).length - 1) + sz := by omega
      rw [key, hr, Nat.add_div_right _ hsz]

theorem chunkListGen_count {α : Type} (sz : Nat) (hsz : 0 < sz) (l : List α) :
    (chunkListGen sz l).length = (l.length + sz - 1) / sz :=
  chunkChop_count sz hsz l.length l le_rfl

theorem mergeStep_find_self (m : IndicatorSet) (k₀ : String) (v₀ : ThreatIndicator) :
    mapFind? (mergeStep m (k₀, v₀)) k₀ =
      some (match mapFind? m k₀ with
            | some e => mergeCombine e v₀
            | none => v₀) := by
  unfold mergeStep
  cases h : mapFind? m k₀ with
  | none => simpa [h] using mapFind?_set_self m k₀ v₀
  | some e => simpa [h, mergeCombine] using mapFind?_set_self m k₀ (mergeCombine e v₀)

theorem mergeStep_find_other (m : IndicatorSet) (k₀ : String) (v₀ : ThreatIndicator)
    (k : String) (hne : k₀ ≠ k) :
    mapFind? (mergeStep m (k₀, v₀)) k = mapFind? m k := by
  unfold mergeStep
  cases h : mapFind? m k₀ with
  | none => simpa [h] using mapFind?_set_other m k₀ k v₀ hne
  | some e => simp [h, mapFind?_set_other m k₀ k _ hne]

/-- Full characterization of the merged map at every key, for a fresh
map with distinct keys (the JS Map invariant). -/
theorem mergeIndicators_find (existing newIndicators : IndicatorSet)
    (hf : (mapKeys newIndicators).Nodup) (k : String) :
    mapFind? (mergeIndicators existing newIndicators) k =
      match mapFind? existing k, mapFind? newIndicators k with
      | some e, some f => some (mergeCombine e f)
      | some e, none => some e
      | none, some f => some f
      | none, none => none := by
  induction newIndicators generalizing existing with
  | nil =>
    cases h : mapFind? existing k <;> simp [mergeIndicators, mapFind?, h]
  | cons hd rest ih =>
    obtain ⟨k₀, v₀⟩ := hd
    simp only [mapKeys, List.map_cons, List.nodup_cons] at hf
    have hstep : mergeIndicators existing ((k₀, v₀) :: rest) =
        mergeIndicators (mergeStep existing (k₀, v₀)) rest := rfl
    rw [hstep, ih (mergeStep existing (k₀, v₀)) hf.2]
    by_cases hk : k₀ = k
    · subst hk
      have hrest : mapFind? rest k₀ = none :=
        mapFind?_eq_none_of_not_mem_keys rest k₀ (by simpa [mapKeys] using hf.1)
      rw [mergeStep_find_self, hrest]
      cases h : mapFind? existing k₀ <;> simp [mapFind?, h]
    · rw [mergeStep_find_other existing k₀ v₀ k hk]
      cases h : mapFind? existing k <;> simp [mapFind?, hk, h]

/-- C1: for every pair of indicator sets (existing, fresh) with the JS
Map key-uniqueness invariant on fresh, mergeIndicators maps every key
present only in fresh to the fresh indicator unchanged, every key
present only in existing to the existing indicator unchanged, and every
key present in both to an indicator whose sources are the deduplicated
union of both source lists, whose score is min 100 of the average of
both scores, and whose last_seen and expires_at come from the fresh
indicator; moreover the two concrete examples of the specification
hold: merging A(score 5, sources S1) into the empty set leaves it
unchanged, and merging A(score 6, S2) into A(score 10, S1) yields
score 8 and sources S1, S2. -/
theorem claim_C1 (existing fresh : IndicatorSet)
    (hfresh : (mapKeys fresh).Nodup) :
    (∀ k f, mapFind? existing k = none → mapFind? fresh k = some f →
      mapFind? (mergeIndicators existing fresh) k = some f) ∧
    (∀ k e, mapFind? existing k = some e → mapFind? fresh k = none →
      mapFind? (mergeIndicators existing fresh) k = some e) ∧
    (∀ k e f, mapFind? existing k = some e → mapFind? fresh k = some f →
      ∃ m, mapFind? (mergeIndicators existing fresh) k = some m ∧
        m.sources = dedupFirst (e.sources ++ f.sources) ∧
        m.sources.Nodup ∧
        (∀ s, s ∈ m.sources ↔ s ∈ e.sources ∨ s ∈ f.sources) ∧
        m.score = min 100 ((e.score + f.score) / 2) ∧
        m.last_seen = f.last_seen ∧ m.expires_at = f.expires_at) ∧
    mergeIndicators [] [("A", exIndA5)] = [("A", exIndA5)] ∧
    (∃ m, mergeIndicators [("A", exIndA10)] [("A", exIndA6)] = [("A", m)] ∧
      m.score = 8 ∧ m.sources = ["S1", "S2"]) := by
  refine ⟨?_, ?_, ?_, ?_, ?_⟩
  · intro k f he hf
    rw [mergeIndicators_find existing fresh hfresh k, he, hf]
  · intro k e he hf
    rw [mergeIndicators_find existing fresh hfresh k, he, hf]
  · intro k e f he hf
    refine ⟨mergeCombine e f, ?_, ?_, ?_, ?_, ?_, ?_, ?_⟩
    · rw [mergeIndicators_find existing fresh hfresh k, he, hf]
    · rfl
    · exact dedupFirst_nodup _
    · intro s
      simpa [mergeCombine] using
        (dedupFirst_mem (e.sources ++ f.sources) s).trans (List.mem_append)
    · rfl
    · rfl
    · rfl
  · rfl
  · refine ⟨mergeCombine exIndA10 exIndA6, rfl, ?_, by decide⟩
    show min 100 ((exIndA10.score + exIndA6.score) / 2) = 8
    rw [show exIndA10.score = 10 from rfl, show exIndA6.score = 6 from rfl]
    norm_num

/-- Witness for C1 at concrete input: the fresh map with the single key
A has distinct keys, and applying the theorem there describes the
merged indicator at key A. -/
theorem claim_C1_witness :
    ∃ m, mapFind? (mergeIndicators [("A", exIndA10)] [("A", exIndA6)]) "A" = some m ∧
      m.score = min 100 ((exIndA10.score + exIndA6.score) / 2) := by
  obtain ⟨-, -, h3, -, -⟩ :=
    claim_C1 [("A", exIndA10)] [("A", exIndA6)] (by decide)
  obtain ⟨m, hm, -, -, -, hs, -, -⟩ := h3 "A" exIndA10 exIndA6 (by decide) (by decide)
  exact ⟨m, hm, hs⟩

theorem kvDeleteFold_indicator (keys : List String) (st : KVState) (k : KVKey)
    (hk : ∀ v, k ≠ KVKey.indicator v) :
    (keys.foldl (fun acc key => kvDelete acc (KVKey.indicator key)) st) k = st k := by
  induction keys generalizing st with
  | nil => rfl
  | cons x xs ih =>
    simp only [List.foldl_cons]
    rw [ih (kvDelete st (KVKey.indicator x))]
    simp [kvDelete, hk x]

theorem load_after_indicator_deletes_pre (st st' : KVState)
    (h1 : st' KVKey.chunkIndex = st KVKey.chunkIndex)
    (h2 : ∀ i, st' (KVKey.chunk i) = st (KVKey.chunk i))
    (h3 : st' KVKey.allIndicators = st KVKey.allIndicators) :
    getAllIndicators st' = getAllIndicators st := by
  unfold getAllIndicators
  rw [h1, h3]
  simp only [h2]

/-- Deleting per-indicator point keys never changes what a bulk load
returns: the chunked bulk load reads only the single-entry key, the
chunk index key and the chunk keys. -/
theorem load_after_indicator_deletes (keys : List String) (st : KVState) :
    getAllIndicators (keys.foldl (fun acc key => kvDelete acc (KVKey.indicator key)) st) =
      getAllIndicators st :=
  load_after_indicator_deletes_pre st _
    (kvDeleteFold_indicator keys st KVKey.chunkIndex (fun v => by simp))
    (fun i => kvDeleteFold_indicator keys st (KVKey.chunk i) (fun v => by simp))
    (kvDeleteFold_indicator keys st KVKey.allIndicators (fun v => by simp))

theorem cleanup_never_changes_load (st : KVState) (now : Int) (c : Nat) (st' : KVState)
    (h : cleanupExpiredIndicators st now = Except.ok (c, st')) :
    getAllIndicators st' = getAllIndicators st := by
  unfold cleanupExpiredIndicators at h
  cases hall : getAllIndicators st with
  | error e =>
    rw [hall] at h
    exact Except.noConfusion h
  | ok all =>
    rw [hall] at h
    simp only [Except.ok.injEq, Prod.mk.injEq] at h
    obtain ⟨-, hst⟩ := h
    subst hst
    rw [load_after_indicator_deletes]
    exact hall

/-- C2: cleanupExpiredIndicators reports the number of expired
indicators but does not remove them from the bulk storage the chunked
store writes: it deletes only per-indicator point keys, which the bulk
representation does not use, so a subsequent load still returns every
expired indicator. Concretely, after persisting a map holding one
indicator expired at time 10 and running cleanup at time 100, the
returned count is 1 yet a load still returns the expired indicator;
and in general a cleanup call never changes the result of a load. -/
theorem claim_C2 :
    ((cleanupExpiredIndicators exStoreSt1 100).map Prod.fst = Except.ok 1 ∧
      (cleanupExpiredIndicators exStoreSt1 100).map (fun r => getAllIndicators r.2) =
        Except.ok (Except.ok [("1.2.3.4", exIndExp)])) ∧
    (∀ (st : KVState) (now : Int) (c : Nat) (st' : KVState),
      cleanupExpiredIndicators st now = Except.ok (c, st') →
      getAllIndicators st' = getAllIndicators st) :=
  ⟨⟨rfl, rfl⟩, cleanup_never_changes_load⟩

/-- Witness for C2: the general conjunct applied to the concrete
post-persist state at time 100. -/
theorem claim_C2_witness :
    getAllIndicators
        ((cleanupExpiredIndicators exStoreSt1 100).toOption.getD (0, exStoreSt1)).2 =
      getAllIndicators exStoreSt1 :=
  claim_C2.2 exStoreSt1 100 1
    ((cleanupExpiredIndicators exStoreSt1 100).toOption.getD (0, exStoreSt1)).2 rfl

/-- C3: after a successful persist in the small branch the single
entry holds the serialized data and the chunk index is deleted, but
chunk entries written by an earlier chunked persist are not deleted:
persisting a small map on top of a chunked state leaves chunk 0 in
storage, contradicting the exactly-one-representation claim. The
chunked branch itself does delete the single entry and write chunks
plus index. Demonstrated at chunk threshold 4. -/
theorem claim_C3 :
    (exStoreStA KVKey.allIndicators = none ∧
      (∃ c, exStoreStA KVKey.chunkIndex = some c) ∧
      (∃ c, exStoreStA (KVKey.chunk 0) = some c)) ∧
    (exStoreStB KVKey.allIndicators = some (serializeIndicators []) ∧
      exStoreStB KVKey.chunkIndex = none ∧
      (∃ c, exStoreStB (KVKey.chunk 0) = some c)) :=
  ⟨⟨rfl, ⟨_, rfl⟩, ⟨_, rfl⟩⟩, ⟨rfl, rfl, ⟨_, rfl⟩⟩⟩

/-- C4 counterexample: a storage state whose chunk index declares two
chunks while chunk 1 is absent does not make the load a hard failure:
the load returns the empty set successfully and never surfaces an
error, contradicting the claim. -/
theorem claim_C4_counterexample :
    exMissingChunkSt KVKey.chunkIndex = some (encodeChunkIndex 2 8 0) ∧
    exMissingChunkSt (KVKey.chunk 1) = none ∧
    getAllIndicators exMissingChunkSt = Except.ok [] ∧
    ∀ e, getAllIndicators exMissingChunkSt ≠ Except.error e := by
  refine ⟨rfl, rfl, rfl, fun e h => ?_⟩
  rw [show getAllIndicators exMissingChunkSt = Except.ok [] from rfl] at h
  exact Except.noConfusion h

/-- C4 amended: whenever the stored chunk index itself parses, the load
returns successfully (missing declared chunks are read as empty
strings and an unparseable concatenation yields the empty set, never a
surfaced error); and when neither a chunk index nor the single-entry
key exists, the load returns the empty set and never an error. -/
theorem claim_C4 :
    (∀ (st : KVState) (idx : String) (nst : Nat × Nat × Int),
      st KVKey.chunkIndex = some idx → decodeChunkIndex idx = some nst →
      ∃ r, getAllIndicators st = Except.ok r) ∧
    (∀ st : KVState, st KVKey.chunkIndex = none → st KVKey.allIndicators = none →
      getAllIndicators st = Except.ok []) := by
  constructor
  · intro st idx nst h1 h2
    simp only [getAllIndicators, h1, h2]
    cases hp : parseIndicators
        (joinWith "" ((List.range nst.1).map (fun i => (st (KVKey.chunk i)).getD ""))) with
    | none => exact ⟨[], by simp [hp]⟩
    | some r => exact ⟨r, by simp [hp]⟩
  · intro st h1 h2
    simp [getAllIndicators, h1, h2]

/-- Witness for C4: the first conjunct at the missing-chunk state, the
second at the empty namespace. -/
theorem claim_C4_witness :
    (∃ r, getAllIndicators exMissingChunkSt = Except.ok r) ∧
    getAllIndicators emptyKV = Except.ok [] :=
  ⟨claim_C4.1 exMissingChunkSt (encodeChunkIndex 2 8 0) (2, 8, 0) rfl rfl,
    claim_C4.2 emptyKV rfl rfl⟩

/-- C9: isUpdateNeeded is true when no prior run timestamp is stored;
with a stored timestamp and a 24 hour interval it is true exactly when
the elapsed time is at least 24 hours, hence false at 23h59m elapsed
and true at exactly 24h0m elapsed. -/
theorem claim_C9 :
    (∀ (now intervalHours : Int), isUpdateNeeded none now intervalHours = true) ∧
    (∀ (now last : Int),
      isUpdateNeeded (some last) now 24 = true ↔ now - last ≥ 86400000) ∧
    isUpdateNeeded (some 0) 86340000 24 = false ∧
    isUpdateNeeded (some 0) 86400000 24 = true := by
  refine ⟨fun _ _ => rfl, fun now last => ?_, by decide, by decide⟩
  simp only [isUpdateNeeded]
  rw [show (24 : Int) * 60 * 60 * 1000 = 86400000 by norm_num]
  exact decide_eq_true_iff

/-- C5 counterexample: a non-2xx, non-429 response is not surfaced
immediately: a call answered 500 then 200 is retried after one backoff
delay and succeeds, surfacing no error, contradicting the claim that
any non-2xx response other than 429 surfaces immediately without any
retry. -/
theorem claim_C5_counterexample :
    makeRequest exResp500then200 = (Except.ok "ok-body", [2000]) ∧
    ∀ e, (makeRequest exResp500then200).1 ≠ Except.error e := by
  refine ⟨rfl, fun e h => ?_⟩
  rw [show (makeRequest exResp500then200).1 = Except.ok "ok-body" from rfl] at h
  exact Except.noConfusion h

/-- C5 amended: a 429 response is retried with exponentially growing
delay (the 2000 ms base delay doubling per attempt) up to the 3-attempt
ceiling, and exhausting the ceiling surfaces the last HTTP error; a
sequence 429, 429, 200 succeeds after the two backoff delays 2000 ms
and 4000 ms with no surfaced error; and any other non-2xx response is
also retried with the same backoff rather than surfacing immediately,
while a 2xx response returns at once with no delay. -/
theorem claim_C5 :
    makeRequest exResp429x2then200 = (Except.ok "ok-body", [2000, 4000]) ∧
    (∀ responses : Nat → HttpResponse,
      (responses 1).status = 429 → (responses 2).status = 429 →
      (responses 3).status = 429 →
      makeRequest responses = (Except.error (httpError (responses 3)), [2000, 4000])) ∧
    (∀ responses : Nat → HttpResponse,
      (responses 1).status = 500 → (responses 2).status = 200 →
      makeRequest responses = (Except.ok (responses 2).body, [2000])) ∧
    (∀ responses : Nat → HttpResponse,
      200 ≤ (responses 1).status → (responses 1).status < 300 →
      makeRequest responses = (Except.ok (responses 1).body, [])) := by
  refine ⟨rfl, ?_, ?_, ?_⟩
  · intro responses h1 h2 h3
    simp [makeRequest, makeRequestFrom, maxRetries, baseDelay, respOk, h1, h2, h3]
  · intro responses h1 h2
    simp [makeRequest, makeRequestFrom, maxRetries, baseDelay, respOk, h1, h2]
  · intro responses h1 h2
    have hne : (responses 1).status ≠ 429 := by omega
    have hok : respOk (responses 1) = true := by
      simp [respOk]
      omega
    simp [makeRequest, makeRequestFrom, maxRetries, baseDelay, hne, hok]

/-- Witness for C5: the rate-limited-on-every-attempt conjunct at the
concrete all-429 call. -/
theorem claim_C5_witness :
    makeRequest exRespAll429 = (Except.error (httpError (exRespAll429 3)), [2000, 4000]) :=
  claim_C5.2.1 exRespAll429 rfl rfl rfl

theorem addThreatIndicator_find_other (m : IndicatorSet) (value : String)
    (ty : IndicatorType) (src : SourceCfg) (t e : Int) (v : String) (hv : value ≠ v) :
    mapFind? (addThreatIndicator m value ty src t e) v = mapFind? m v := by
  unfold addThreatIndicator
  cases h : mapFind? m value with
  | none => exact mapFind?_set_other m value v _ hv
  | some existing =>
    by_cases hmem : src.name ∈ existing.sources
    · simp [hmem]
    · simp only [hmem, if_neg, if_false]
      exact mapFind?_set_other m value v _ hv

theorem addThreatIndicator_find_self (m : IndicatorSet) (value : String)
    (ty : IndicatorType) (src : SourceCfg) (t e : Int) :
    mapFind? (addThreatIndicator m value ty src t e) value =
      some (collectStepFun (mapFind? m value) ⟨value, ty, src, t, e⟩) := by
  unfold addThreatIndicator collectStepFun
  cases h : mapFind? m value with
  | none => simpa using mapFind?_set_self m value _
  | some existing =>
    by_cases hmem : src.name ∈ existing.sources
    · simp [hmem, h]
    · simp only [hmem, if_neg, if_false]
      simpa [hmem] using mapFind?_set_self m value _

/-- The binding of a value after a collection pass is the pure fold of
the per-value step over exactly the reports for that value. -/
theorem processReports_find (rs : List Report) (m : IndicatorSet) (v : String) :
    mapFind? (processReports m rs) v =
      (rs.filter (fun r => decide (r.value = v))).foldl
        (fun cur r => some (collectStepFun cur r)) (mapFind? m v) := by
  induction rs generalizing m with
  | nil => rfl
  | cons r rs ih =>
    have hstep : processReports m (r :: rs) =
        processReports (addThreatIndicator m r.value r.rtype r.src r.timestamp r.expiresAt) rs :=
      rfl
    rw [hstep, ih]
    by_cases hv : r.value = v
    · subst hv
      rw [addThreatIndicator_find_self]
      simp [List.filter_cons]
    · rw [addThreatIndicator_find_other m r.value r.rtype r.src r.timestamp r.expiresAt v hv]
      simp [List.filter_cons, hv]

theorem dbnGo_names_nodup (srcs : List SourceCfg) (acc : List SourceCfg)
    (hacc : (acc.map SourceCfg.name).Nodup) :
    ((srcs.foldl dbnStep acc).map SourceCfg.name).Nodup := by
  induction srcs generalizing acc with
  | nil => simpa using hacc
  | cons s srcs ih =>
    simp only [List.foldl_cons, dbnStep]
    by_cases h : s.name ∈ acc.map SourceCfg.name
    · simpa [h] using ih acc hacc
    · have : ((acc ++ [s]).map SourceCfg.name).Nodup := by
        simp [List.nodup_append, hacc, h]
      simpa [h] using ih (acc ++ [s]) this

theorem dbnGo_names_mem (srcs : List SourceCfg) (acc : List SourceCfg) (y : String) :
    y ∈ (srcs.foldl dbnStep acc).map SourceCfg.name ↔
      y ∈ acc.map SourceCfg.name ∨ y ∈ srcs.map SourceCfg.name := by
  induction srcs generalizing acc with
  | nil => simp
  | cons s srcs ih =>
    simp only [List.foldl_cons, dbnStep]
    by_cases h : s.name ∈ acc.map SourceCfg.name
    · rw [if_pos h, ih]
      simp only [List.map_cons, List.mem_cons]
      constructor
      · rintro (hy | hy)
        · exact Or.inl hy
        · exact Or.inr (Or.inr hy)
      · rintro (hy | hy | hy)
        · exact Or.inl hy
        · exact Or.inl (hy ▸ h)
        · exact Or.inr hy
    · rw [if_neg h, ih]
      simp only [List.map_append, List.map_cons, List.map_nil, List.mem_append,
        List.mem_singleton, List.mem_cons]
      tauto

theorem dbnGo_sub (srcs : List SourceCfg) (acc : List SourceCfg) (s : SourceCfg)
    (hs : s ∈ srcs.foldl dbnStep acc) : s ∈ acc ∨ s ∈ srcs := by
  induction srcs generalizing acc with
  | nil => exact Or.inl (by simpa using hs)
  | cons x srcs ih =>
    simp only [List.foldl_cons, dbnStep] at hs
    by_cases h : x.name ∈ acc.map SourceCfg.name
    · rw [if_pos h] at hs
      rcases ih acc hs with ha | hsr
      · exact Or.inl ha
      · exact Or.inr (List.mem_cons_of_mem _ hsr)
    · rw [if_neg h] at hs
      rcases ih (acc ++ [x]) hs with ha | hsr
      · rcases List.mem_append.mp ha with ha | hx
        · exact Or.inl ha
        · exact Or.inr (List.mem_cons.mpr (Or.inl (List.mem_singleton.mp hx)))
      · exact Or.inr (List.mem_cons_of_mem _ hsr)

/-- Invariant of the per-value collection fold: sources stay the names
of the distinct sources seen so far and the score stays the sum of
their weights. -/
theorem collectFold_char (vrs : List Report) (seen : List SourceCfg)
    (ind : ThreatIndicator)
    (hs : ind.sources = seen.map SourceCfg.name)
    (hw : ind.score = (seen.map SourceCfg.weight).sum) :
    ∃ ind', vrs.foldl (fun cur r => some (collectStepFun cur r)) (some ind) = some ind' ∧
      ind'.sources = ((vrs.map Report.src).foldl dbnStep seen).map SourceCfg.name ∧
      ind'.score = (((vrs.map Report.src).foldl dbnStep seen).map SourceCfg.weight).sum := by
  induction vrs generalizing seen ind with
  | nil => exact ⟨ind, rfl, hs, hw⟩
  | cons r vrs ih =>
    simp only [List.foldl_cons, List.map_cons]
    by_cases hmem : r.src.name ∈ ind.sources
    · have hstep : collectStepFun (some ind) r = ind := by
        simp [collectStepFun, hmem]
      have hdbn : dbnStep seen r.src = seen := by
        rw [dbnStep, if_pos (hs ▸ hmem)]
      rw [hstep, hdbn]
      exact ih seen ind hs hw
    · have hstep : collectStepFun (some ind) r =
          { ind with
            sources := ind.sources ++ [r.src.name]
            score := ind.score + r.src.weight
            last_seen := r.timestamp
            expires_at := r.expiresAt } := by
        simp [collectStepFun, hmem]
      have hdbn : dbnStep seen r.src = seen ++ [r.src] := by
        rw [dbnStep, if_neg (fun hc => hmem (hs ▸ hc))]
      rw [hstep, hdbn]
      refine ih (seen ++ [r.src]) _ ?_ ?_
      · simp [hs]
      · simp [hw]

/-- C6 counterexample: two sources of weight 60 reporting the same
value in one pass produce score 120, above 100: the collection step
applies no cap, contradicting the claim that the score is the capped
sum and never exceeds 100. -/
theorem claim_C6_counterexample :
    ∃ ind, mapFind? (processReports [] [exRep1, exRep2]) "9.9.9.9" = some ind ∧
      ind.sources = ["A", "B"] ∧ ind.score = 120 ∧ ¬ ind.score ≤ 100 := by
  refine ⟨_, rfl, rfl, ?_, ?_⟩
  · show (60 : ℚ) + 60 = 120
    norm_num
  · show ¬ ((60 : ℚ) + 60 ≤ 100)
    norm_num

/-- C6 amended: within one collection pass, the indicator produced for
a value reported by several sources carries the deduplicated list of
reporting source names, and its score is the plain (uncapped) sum of
the weights of the distinct contributing sources; the score is
nonnegative whenever all weights are, but no upper cap is applied. -/
theorem claim_C6 (rs : List Report) (v : String) (m : IndicatorSet)
    (hm : mapFind? m v = none) :
    (rs.filter (fun r => decide (r.value = v)) = [] →
      mapFind? (processReports m rs) v = none) ∧
    (∀ r₀ rest, rs.filter (fun r => decide (r.value = v)) = r₀ :: rest →
      ∃ ind, mapFind? (processReports m rs) v = some ind ∧
        ind.sources =
          (distinctByName ((r₀ :: rest).map Report.src)).map SourceCfg.name ∧
        ind.sources.Nodup ∧
        (∀ s, s ∈ ind.sources ↔ s ∈ (r₀ :: rest).map (fun r => r.src.name)) ∧
        ind.score =
          ((distinctByName ((r₀ :: rest).map Report.src)).map SourceCfg.weight).sum ∧
        ((∀ r ∈ r₀ :: rest, 0 ≤ r.src.weight) → 0 ≤ ind.score)) := by
  constructor
  · intro hfil
    rw [processReports_find, hfil, hm]
    rfl
  · intro r₀ rest hfil
    rw [processReports_find, hfil, hm]
    simp only [List.foldl_cons]
    have hfirst : collectStepFun none r₀ =
        ⟨r₀.value, r₀.rtype, r₀.src.weight, [r₀.src.name], r₀.timestamp, r₀.timestamp,
          r₀.expiresAt⟩ := rfl
    rw [hfirst]
    obtain ⟨ind, hfold, hsrc, hscore⟩ :=
      collectFold_char rest [r₀.src]
        ⟨r₀.value, r₀.rtype, r₀.src.weight, [r₀.src.name], r₀.timestamp, r₀.timestamp,
          r₀.expiresAt⟩
        (by simp) (by simp)
    have hdbn : (rest.map Report.src).foldl dbnStep [r₀.src] =
        distinctByName ((r₀ :: rest).map Report.src) := by
      rw [distinctByName, List.map_cons, List.foldl_cons]
      rfl
    refine ⟨ind, hfold, ?_, ?_, ?_, ?_, ?_⟩
    · rw [hsrc, hdbn]
    · rw [hsrc]
      exact dbnGo_names_nodup _ _ (by simp)
    · intro s
      rw [hsrc]
      rw [dbnGo_names_mem]
      simp only [List.map_cons, List.map_nil, List.mem_singleton, List.mem_cons]
      constructor
      · rintro (hy | hy)
        · exact Or.inl (by simpa using hy)
        · right
          simpa [List.mem_map] using hy
      · rintro (hy | hy)
        · exact Or.inl (by simpa using hy)
        · right
          simpa [List.mem_map] using hy
    · rw [hscore, hdbn]
    · intro hnn
      rw [hscore]
      refine List.sum_nonneg ?_
      intro x hx
      rw [List.mem_map] at hx
      obtain ⟨s, hsmem, rfl⟩ := hx
      rcases dbnGo_sub _ _ s hsmem with ha | hsr
      · rcases List.mem_singleton.mp ha with rfl
        exact hnn r₀ (List.mem_cons_self _ _)
      · rw [List.mem_map] at hsr
        obtain ⟨r, hrmem, rfl⟩ := hsr
        exact hnn r (List.mem_cons_of_mem _ hrmem)

/-- Witness for C6: both conjuncts applied at the concrete two-report
pass for value 9.9.9.9 starting from the empty map. -/
theorem claim_C6_witness :
    mapFind? (processReports [] [exRep1, exRep2]) "zzz" = none ∧
    ∃ ind, mapFind? (processReports [] [exRep1, exRep2]) "9.9.9.9" = some ind ∧
      ind.sources = (distinctByName ([exRep1, exRep2].map Report.src)).map SourceCfg.name := by
  constructor
  · exact (claim_C6 [exRep1, exRep2] "zzz" [] rfl).1 rfl
  · obtain ⟨ind, h1, h2, -⟩ :=
      (claim_C6 [exRep1, exRep2] "9.9.9.9" [] rfl).2 exRep1 [exRep2] rfl
    exact ⟨ind, h1, h2⟩

/-- The per-partition loop treats every slice independently: its
result on a concatenation of slice lists is the concatenation of its
results, so a failure inside one slice's population never affects the
sibling slices. -/
theorem createListsLoop_append (env : ApiEnv) (b : Nat)
    (l₁ l₂ : List (List ThreatIndicator)) (i : Nat) :
    createListsLoop env b (l₁ ++ l₂) i =
      createListsLoop env b l₁ i ++ createListsLoop env b l₂ (i + l₁.length) := by
  induction l₁ generalizing i with
  | nil => simp [createListsLoop]
  | cons x l₁ ih =>
    have harith : i + 1 + l₁.length = i + (l₁.length + 1) := by omega
    simp only [List.cons_append, createListsLoop, List.append_eq]
    split
    · rw [ih (i + 1)]
      simp [harith]
    · split
      · rw [ih (i + 1)]
        simp [harith]
      · split
        · rw [ih (i + 1)]
          simp [harith]
        · rw [ih (i + 1)]
          simp [harith]

theorem createListsLoop_singleton (env : ApiEnv) (b : Nat)
    (items : List ThreatIndicator) (i : Nat) (id : String)
    (hne : items ≠ []) (hcr : env.createResult i = CreateOutcome.created id) :
    createListsLoop env b [items] i =
      if populateBatches env id 0 (chunkListGen b (toGatewayItems items)) then [id]
      else [] := by
  have hx : items.isEmpty = false := by
    cases items with
    | nil => exact absurd rfl hne
    | cons a l => rfl
  simp [createListsLoop, hx, hcr]

/-- C7 counterexample: with three indicators split at cap 2 into two
partitions, where the batch appends of the first partition's list fail
and the second partition's succeed, the second list is still created
and populated and its id is persisted, but the overall response still
reports success true, contradicting the claim that the success flag is
false whenever at least one list failed. -/
theorem claim_C7_counterexample :
    (createMultipleListsWith 2 1 exPubEnv emptyKV [exIndExp, exIndExp, exIndExp] 0).1.success
        = true ∧
    (createMultipleListsWith 2 1 exPubEnv emptyKV [exIndExp, exIndExp, exIndExp] 0).2.1
        = ["id1"] :=
  ⟨rfl, rfl⟩

/-- C7 amended: a batch-append failure aborts only its own list: the
loop processes slices independently (its result on concatenated slice
lists is the concatenation of results), and a created list's id is
kept exactly when all its batches succeed; the ids of the fully
created lists are persisted under the gateway-lists metadata key; but
the overall success flag is true unconditionally, regardless of
per-list failures. -/
theorem claim_C7 :
    (∀ (env : ApiEnv) (b : Nat) (l₁ l₂ : List (List ThreatIndicator)) (i : Nat),
      createListsLoop env b (l₁ ++ l₂) i =
        createListsLoop env b l₁ i ++ createListsLoop env b l₂ (i + l₁.length)) ∧
    (∀ (env : ApiEnv) (b : Nat) (items : List ThreatIndicator) (i : Nat) (id : String),
      items ≠ [] → env.createResult i = CreateOutcome.created id →
      createListsLoop env b [items] i =
        if populateBatches env id 0 (chunkListGen b (toGatewayItems items)) then [id]
        else []) ∧
    (∀ (cap b : Nat) (env : ApiEnv) (st : KVState) (ind : List ThreatIndicator) (now : Int),
      (createMultipleListsWith cap b env st ind now).2.2 KVKey.gatewayListsMeta =
        some (encodeListIds (createMultipleListsWith cap b env st ind now).2.1 now)) ∧
    (∀ (cap b : Nat) (env : ApiEnv) (st : KVState) (ind : List ThreatIndicator) (now : Int),
      (createMultipleListsWith cap b env st ind now).1.success = true) := by
  refine ⟨createListsLoop_append, createListsLoop_singleton, ?_, fun _ _ _ _ _ _ => rfl⟩
  intro cap b env st ind now
  simp [createMultipleListsWith, kvPut]

/-- Witness for C7: the singleton conjunct at the concrete failing
environment and partition 0, whose batches fail, yielding no id. -/
theorem claim_C7_witness :
    createListsLoop exPubEnv 1 [[exIndExp, exIndExp]] 0 =
      (if populateBatches exPubEnv "id0" 0
          (chunkListGen 1 (toGatewayItems [exIndExp, exIndExp])) then ["id0"]
        else []) :=
  claim_C7.2.1 exPubEnv 1 [exIndExp, exIndExp] 0 "id0" (by simp) rfl

/-- C8: partitioning at the 4500 per-list cap splits any indicator
list into ceiling(n / 4500) ordered contiguous slices of at most 4500
items each whose concatenation is the original list; 10000 indicators
give exactly 3 slices summing to 10000 items; and the generated name
of a partition is the date stamp together with the zero-padded 1-based
partition index and total partition count, as in the specification
example DynamicThreatFeed-20250123-Part002of042. -/
theorem claim_C8 (indicators : List ThreatIndicator) :
    (chunkListGen maxItemsPerList indicators).length =
      (indicators.length + 4499) / 4500 ∧
    (∀ c ∈ chunkListGen maxItemsPerList indicators, c.length ≤ 4500) ∧
    (chunkListGen maxItemsPerList indicators).flatten = indicators ∧
    (indicators.length = 10000 →
      (chunkListGen maxItemsPerList indicators).length = 3 ∧
      ((chunkListGen maxItemsPerList indicators).map List.length).sum = 10000) ∧
    (∀ (ds : String) (i total : Nat),
      listNameFor ds i total =
        "DynamicThreatFeed-" ++ ds ++ "-Part" ++ pad3 (i + 1) ++ "of" ++ pad3 total) ∧
    listNameFor "20250123" 1 42 = "DynamicThreatFeed-20250123-Part002of042" := by
  have hpos : 0 < maxItemsPerList := by
    rw [maxItemsPerList]
    omega
  refine ⟨?_, ?_, ?_, ?_, fun _ _ _ => rfl, rfl⟩
  · rw [chunkListGen_count maxItemsPerList hpos]
    simp only [maxItemsPerList]
    omega
  · intro c hc
    have h := chunkListGen_length_le maxItemsPerList indicators c hc
    simpa [maxItemsPerList] using h
  · exact chunkListGen_join maxItemsPerList hpos indicators
  · intro hlen
    constructor
    · rw [chunkListGen_count maxItemsPerList hpos, hlen]
      simp only [maxItemsPerList]
    · rw [← List.length_flatten, chunkListGen_join maxItemsPerList hpos, hlen]

/-- Witness for C8: the 10000-indicator conjunct at a concrete
10000-element list. -/
theorem claim_C8_witness :
    (chunkListGen maxItemsPerList (List.replicate 10000 exIndExp)).length = 3 ∧
    ((chunkListGen maxItemsPerList (List.replicate 10000 exIndExp)).map List.length).sum
      = 10000 :=
  (claim_C8 (List.replicate 10000 exIndExp)).2.2.2.1 (List.length_replicate 10000 exIndExp)

theorem splitOnChar_ne_nil (sep : Char) (cs : List Char) : splitOnChar sep cs ≠ [] := by
  cases cs with
  | nil => simp [splitOnChar]
  | cons c tl =>
    cases h : splitOnChar sep tl with
    | nil => simp [splitOnChar, h]
    | cons seg segs =>
      by_cases hc : c = sep <;> simp [splitOnChar, h, hc]

theorem splitOnChar_no_sep (sep : Char) (cs : List Char) (h : sep ∉ cs) :
    splitOnChar sep cs = [cs] := by
  induction cs with
  | nil => rfl
  | cons c tl ih =>
    simp only [List.mem_cons] at h
    push_neg at h
    rw [splitOnChar, ih h.2]
    simp [Ne.symm h.1]

theorem splitOnChar_append (sep : Char) (x rest : List Char) (hx : sep ∉ x) :
    splitOnChar sep (x ++ sep :: rest) = x :: splitOnChar sep rest := by
  induction x with
  | nil =>
    cases h : splitOnChar sep rest with
    | nil => exact absurd h (splitOnChar_ne_nil sep rest)
    | cons seg segs => simp [splitOnChar, h]
  | cons a x ih =>
    simp only [List.mem_cons] at hx
    push_neg at hx
    rw [List.cons_append, splitOnChar, ih hx.2]
    simp [Ne.symm hx.1]

theorem strToList_append (a b : String) : (a ++ b).toList = a.toList ++ b.toList := rfl

theorem strMk_toList (s : String) : String.mk s.toList = s := rfl

/-- Splitting a newline join of newline-free lines recovers the
lines. -/
theorem splitLines_join (ls : List String) (hne : ls ≠ [])
    (hnl : ∀ l ∈ ls, ('\n') ∉ l.toList) :
    strSplitOn '\n' (joinWith "\n" ls) = ls := by
  induction ls with
  | nil => exact absurd rfl hne
  | cons x ls ih =>
    cases ls with
    | nil =>
      show (splitOnChar '\n' x.toList).map String.mk = [x]
      rw [splitOnChar_no_sep '\n' x.toList (hnl x (List.mem_cons_self x []))]
      simp [strMk_toList]
    | cons y rest =>
      have hx : ('\n') ∉ x.toList := hnl x (List.mem_cons_self _ _)
      have hrest : ∀ l ∈ y :: rest, ('\n') ∉ l.toList :=
        fun l hl => hnl l (List.mem_cons_of_mem _ hl)
      have hjoin : joinWith "\n" (x :: y :: rest) = x ++ "\n" ++ joinWith "\n" (y :: rest) :=
        rfl
      show (splitOnChar '\n' (joinWith "\n" (x :: y :: rest)).toList).map String.mk =
        x :: y :: rest
      rw [hjoin, strToList_append, strToList_append]
      have hlist : x.toList ++ ("\n").toList ++ (joinWith "\n" (y :: rest)).toList =
          x.toList ++ ('\n') :: (joinWith "\n" (y :: rest)).toList := by
        simp
      rw [hlist, splitOnChar_append '\n' _ _ hx, List.map_cons, strMk_toList]
      have := ih (by simp) hrest
      rw [show (splitOnChar '\n' (joinWith "\n" (y :: rest)).toList).map String.mk =
          strSplitOn '\n' (joinWith "\n" (y :: rest)) from rfl, this]

/-- Inserting a line that extracts nothing into a newline-joined text
does not change the deduplicated per-line extraction. -/
theorem extract_skip_insert (f : String → List String) (pre post : List String) (c : String)
    (hnl : ∀ l ∈ pre ++ c :: post, ('\n') ∉ l.toList)
    (hfc : f c = []) (hfe : f "" = []) :
    dedupFirst (((strSplitOn '\n' (joinWith "\n" (pre ++ c :: post))).map f).flatten) =
      dedupFirst (((strSplitOn '\n' (joinWith "\n" (pre ++ post))).map f).flatten) := by
  have h1 : strSplitOn '\n' (joinWith "\n" (pre ++ c :: post)) = pre ++ c :: post :=
    splitLines_join _ (by simp) hnl
  rw [h1]
  cases heq : pre ++ post with
  | nil =>
    obtain ⟨hpre, hpost⟩ := List.append_eq_nil.mp heq
    subst hpre
    subst hpost
    show dedupFirst (([c].map f).flatten) =
      dedupFirst (((strSplitOn '\n' (joinWith "\n" ([] : List String))).map f).flatten)
    have hsplit : strSplitOn '\n' (joinWith "\n" ([] : List String)) = [""] := rfl
    rw [hsplit]
    simp [hfc, hfe]
  | cons x xs =>
    have h2 : strSplitOn '\n' (joinWith "\n" (pre ++ post)) = pre ++ post := by
      refine splitLines_join _ (by rw [heq]; simp) ?_
      intro l hl
      rcases List.mem_append.mp hl with hl | hl
      · exact hnl l (List.mem_append.mpr (Or.inl hl))
      · exact hnl l (List.mem_append.mpr (Or.inr (List.mem_cons_of_mem _ hl)))
    rw [heq] at h2
    rw [h2, ← heq]
    congr 1
    simp [hfc]

/-- C10: extractIPs and extractDomains always return duplicate-free
lists, and a line whose trimmed form is empty or begins with a hash or
double-slash comment marker contributes no indicators: removing such a
line from a newline-joined text leaves both extraction results
unchanged, and two concrete runs confirm the comment-skipping and the
deduplication. -/
theorem claim_C10 (text : String) (pre post : List String) (c : String)
    (hnl : ∀ l ∈ pre ++ c :: post, ('\n') ∉ l.toList)
    (hc : skipLine (strTrim c) = true) :
    (extractIPs text).Nodup ∧
    (extractDomains text).Nodup ∧
    extractIPs (joinWith "\n" (pre ++ c :: post)) =
      extractIPs (joinWith "\n" (pre ++ post)) ∧
    extractDomains (joinWith "\n" (pre ++ c :: post)) =
      extractDomains (joinWith "\n" (pre ++ post)) ∧
    extractIPs "8.8.8.8\n# 1.2.3.4\n8.8.8.8" = ["8.8.8.8"] ∧
    extractDomains "www.example.com\n// evil.com" = ["example.com"] := by
  have hIPc : lineIPs c = [] := by
    simp [lineIPs, hc]
  have hDomc : lineDomains c = [] := by
    simp [lineDomains, hc]
  refine ⟨dedupFirst_nodup _, dedupFirst_nodup _, ?_, ?_, ?_, ?_⟩
  · exact extract_skip_insert lineIPs pre post c hnl hIPc rfl
  · exact extract_skip_insert lineDomains pre post c hnl hDomc rfl
  · rfl
  · rfl

/-- Witness for C10: the skip-line conjuncts at a concrete text
around a concrete comment line. -/
theorem claim_C10_witness :
    extractIPs (joinWith "\n" (["8.8.8.8"] ++ "# 1.2.3.4" :: ["1.1.1.1"])) =
      extractIPs (joinWith "\n" (["8.8.8.8"] ++ ["1.1.1.1"])) :=
  (claim_C10 "" ["8.8.8.8"] ["1.1.1.1"] "# 1.2.3.4" (by decide) (by decide)).2.2.1

end ThreatFeed
